import Mathlib

/-!
Verification of the notebook orchestration core
(`src/public/scripts/views/notebook.js`) against its specification.

The JavaScript source is shallowly embedded: the cell registry is a Lean
list, the continuation-passing execution pipeline is replayed as a trace of
events, and the Backbone event handlers become pure state-transition
functions.  The behaviour of `NotebookCollection.getNext` / `getPrev` and
of the individual cell views (`CodeView`, `TextView`), whose source files
are not part of the core under study, is modelled from the specification
where a definition's doc comment says so.
-/

namespace ApiNotebook

/-- A cell is either executable code or prose text (spec §3, `variant`). -/
inductive CellVariant
  | code
  | text
deriving DecidableEq, Repr

/-- One cell record of the registry: its variant, its current text content,
and the `_uniqueCellId` that `appendView` assigns to code cells
(`notebook.js` lines 308-311); text cells never receive one. -/
structure Cell where
  variant : CellVariant
  content : String
  uniqueCellId : Option Nat
deriving DecidableEq, Repr

/-- A code cell as produced by deserialization, before id assignment. -/
def codeCell (s : String) : Cell :=
  ⟨CellVariant.code, s, none⟩

/-- A text cell; text cells never carry a unique id. -/
def textCell (s : String) : Cell :=
  ⟨CellVariant.text, s, none⟩

/-- The `(err, result)` pair the ExecutionContext hands to the completion
callback of a per-cell execution (`view.execute(function (err, result) ...)`,
`notebook.js` line 145). -/
structure ExecOutcome where
  err : Option String
  result : Option String
deriving DecidableEq, Repr

/-- Observable events of one `Notebook.prototype.execute` run: a cell being
visited (focus + cursor to end, line 142), an ExecutionContext invocation
starting (line 145) and completing (its callback running, line 146), and the
completion callback `cb` firing (line 139). -/
inductive ExecEvent
  | visit (c : Cell)
  | start (source : String)
  | complete (source : String) (o : ExecOutcome)
  | callback
deriving DecidableEq, Repr

/-- The inner `execution` chaining of `Notebook.prototype.execute`
(`notebook.js` lines 135-151) replayed over the registry in order.  `exec`
models the ExecutionContext: it is consulted for each code cell's content.
Modelled from the spec: `CodeView.execute` invokes the ExecutionContext with
the cell's content and calls its callback when that invocation resolves, and
`NotebookCollection.getNext` returns the adjacent cell in registry order
(`none` at the boundary), so the chain walks the list front to back.
Because the continuation is only invoked from inside the per-cell completion
callback, the `complete` event precedes everything the chain does
afterwards; when `getNext` yields nothing the run emits `callback` (the
`return cb && cb()` branch, lines 137-140). -/
def executionLoop (exec : String → ExecOutcome) : List Cell → List ExecEvent
  | [] => [ExecEvent.callback]
  | c :: rest =>
      ExecEvent.visit c ::
        (if c.variant = CellVariant.code then
          ExecEvent.start c.content ::
            ExecEvent.complete c.content (exec c.content) ::
              executionLoop exec rest
        else
          executionLoop exec rest)

/-- Result of one `execute(cb)` call: the event trace, the value of
`this.execution` after the call has settled, and whether the call faulted
(threw) before the chain ever ran. -/
structure ExecResult where
  trace : List ExecEvent
  executionFlag : Bool
  faulted : Bool
deriving Repr

/-- Embedding of `Notebook.prototype.execute` (`notebook.js` lines 129-154).  The method
sets `this.execution = true` first (line 131) and then seeds the chain with
`this.collection.at(0).view` (line 151); on an empty registry `at(0)` is
`undefined`, so the `.view` access throws before any guard runs, leaving the
flag set and never producing a trace.  On a non-empty registry the chain
runs to completion, clearing the flag in its terminal branch (line 138). -/
def executeRun (exec : String → ExecOutcome) (cells : List Cell) : ExecResult :=
  match cells with
  | [] => { trace := [], executionFlag := true, faulted := true }
  | c :: rest =>
      { trace := executionLoop exec (c :: rest), executionFlag := false, faulted := false }

/-- Sources handed to the ExecutionContext, in invocation order. -/
def startsOf : List ExecEvent → List String
  | [] => []
  | ExecEvent.start s :: r => s :: startsOf r
  | _ :: r => startsOf r

/-- Sources whose ExecutionContext invocation has completed, in order. -/
def completesOf : List ExecEvent → List String
  | [] => []
  | ExecEvent.complete s _ :: r => s :: completesOf r
  | _ :: r => completesOf r

/-- The cells visited by the run, in order. -/
def visitsOf : List ExecEvent → List Cell
  | [] => []
  | ExecEvent.visit c :: r => c :: visitsOf r
  | _ :: r => visitsOf r

/-- How many times the completion callback `cb` fired. -/
def callbackCount : List ExecEvent → Nat
  | [] => 0
  | ExecEvent.callback :: r => callbackCount r + 1
  | _ :: r => callbackCount r

/-- Whether `callback` events occur only as the final event of the trace. -/
def callbackLast : List ExecEvent → Bool
  | [] => true
  | [ExecEvent.callback] => true
  | ExecEvent.callback :: _ :: _ => false
  | _ :: r => callbackLast r

/-- Scan of the trace tracking whether an ExecutionContext invocation is in
flight: a `start` is legal only when none is, a `complete` only when one is.
`serialFrom b tr = true` says invocations in `tr` never overlap. -/
def serialFrom : Bool → List ExecEvent → Bool
  | inflight, [] => !inflight
  | inflight, ExecEvent.start _ :: r => !inflight && serialFrom true r
  | inflight, ExecEvent.complete _ _ :: r => inflight && serialFrom false r
  | inflight, _ :: r => serialFrom inflight r

/-- The trace never has two ExecutionContext invocations in flight at once,
and every invocation that starts also completes. -/
def serialTrace (tr : List ExecEvent) : Bool :=
  serialFrom false tr

/-- Erases the ExecutionContext's per-cell `(err, result)` payload from a
trace, keeping only the structure the pipeline itself can observe. -/
def eraseOutcome : ExecEvent → ExecEvent
  | ExecEvent.complete s _ => ExecEvent.complete s ⟨none, none⟩
  | e => e

theorem executionLoop_visits (exec : String → ExecOutcome) :
    ∀ cells : List Cell, visitsOf (executionLoop exec cells) = cells := by
  intro cells
  induction cells with
  | nil => rfl
  | cons c rest ih =>
      by_cases h : c.variant = CellVariant.code <;>
        simp [executionLoop, h, visitsOf, ih]

theorem executionLoop_callbackCount (exec : String → ExecOutcome) :
    ∀ cells : List Cell, callbackCount (executionLoop exec cells) = 1 := by
  intro cells
  induction cells with
  | nil => rfl
  | cons c rest ih =>
      by_cases h : c.variant = CellVariant.code <;>
        simp [executionLoop, h, callbackCount, ih]

theorem executionLoop_erase (e₁ e₂ : String → ExecOutcome) :
    ∀ cells : List Cell,
      (executionLoop e₁ cells).map eraseOutcome
        = (executionLoop e₂ cells).map eraseOutcome := by
  intro cells
  induction cells with
  | nil => rfl
  | cons c rest ih =>
      by_cases h : c.variant = CellVariant.code <;>
        simp [executionLoop, h, eraseOutcome, ih]

/-- Claim C1: on a registry holding `[Code "1+1", Text "note", Code "2+2"]`,
`execute(cb)` invokes the ExecutionContext exactly twice, with `"1+1"` first
and `"2+2"` second, never starts the second invocation before the first has
completed, and fires `cb` exactly once, after both invocations resolved. -/
theorem execute_three_cell_contract (exec : String → ExecOutcome)
    (ia ib ic : Option Nat) :
    startsOf (executeRun exec
        [⟨CellVariant.code, "1+1", ia⟩, ⟨CellVariant.text, "note", ib⟩,
          ⟨CellVariant.code, "2+2", ic⟩]).trace = ["1+1", "2+2"] ∧
    completesOf (executeRun exec
        [⟨CellVariant.code, "1+1", ia⟩, ⟨CellVariant.text, "note", ib⟩,
          ⟨CellVariant.code, "2+2", ic⟩]).trace = ["1+1", "2+2"] ∧
    callbackCount (executeRun exec
        [⟨CellVariant.code, "1+1", ia⟩, ⟨CellVariant.text, "note", ib⟩,
          ⟨CellVariant.code, "2+2", ic⟩]).trace = 1 ∧
    callbackLast (executeRun exec
        [⟨CellVariant.code, "1+1", ia⟩, ⟨CellVariant.text, "note", ib⟩,
          ⟨CellVariant.code, "2+2", ic⟩]).trace = true ∧
    serialTrace (executeRun exec
        [⟨CellVariant.code, "1+1", ia⟩, ⟨CellVariant.text, "note", ib⟩,
          ⟨CellVariant.code, "2+2", ic⟩]).trace = true := by
  refine ⟨rfl, rfl, rfl, rfl, rfl⟩

/-- Claim C2: during an `execute()` run the pipeline never inspects or
branches on a code cell's per-cell outcome — the trace with outcomes erased
is the same for every ExecutionContext behaviour — and a per-cell failure
never prevents the remaining cells from being visited (every registry cell
is visited, in order) or the completion callback from firing (exactly
once). -/
theorem execute_advances_regardless_of_outcome
    (e₁ e₂ : String → ExecOutcome) (cells : List Cell) (h : cells ≠ []) :
    (executeRun e₁ cells).trace.map eraseOutcome
        = (executeRun e₂ cells).trace.map eraseOutcome ∧
    visitsOf (executeRun e₁ cells).trace = cells ∧
    callbackCount (executeRun e₁ cells).trace = 1 := by
  match cells with
  | [] => exact absurd rfl h
  | c :: rest =>
      exact ⟨executionLoop_erase e₁ e₂ (c :: rest),
        executionLoop_visits e₁ (c :: rest),
        executionLoop_callbackCount e₁ (c :: rest)⟩

theorem execute_advances_regardless_of_outcome_witness :
    (([codeCell "1+1", textCell "note"] : List Cell) ≠ []) ∧
    ((executeRun (fun _ => ⟨some "boom", none⟩) [codeCell "1+1", textCell "note"]).trace.map
          eraseOutcome
        = (executeRun (fun _ => ⟨none, some "2"⟩) [codeCell "1+1", textCell "note"]).trace.map
          eraseOutcome ∧
      visitsOf (executeRun (fun _ => ⟨some "boom", none⟩)
          [codeCell "1+1", textCell "note"]).trace = [codeCell "1+1", textCell "note"] ∧
      callbackCount (executeRun (fun _ => ⟨some "boom", none⟩)
          [codeCell "1+1", textCell "note"]).trace = 1) :=
  ⟨by decide,
    execute_advances_regardless_of_outcome (fun _ => ⟨some "boom", none⟩)
      (fun _ => ⟨none, some "2"⟩) [codeCell "1+1", textCell "note"] (by decide)⟩

/-- Claim C9: `execute(cb)` is only well-defined on a non-empty registry.
On an empty registry the call faults (it dereferences `collection.at(0).view`
before any guard), the completion callback never fires, and `this.execution`
is left set; on any non-empty registry the call does not fault. -/
theorem execute_faults_on_empty_registry (exec : String → ExecOutcome) :
    (executeRun exec []).faulted = true ∧
    (executeRun exec []).executionFlag = true ∧
    callbackCount (executeRun exec []).trace = 0 ∧
    ∀ cells : List Cell, cells ≠ [] → (executeRun exec cells).faulted = false := by
  refine ⟨rfl, rfl, rfl, ?_⟩
  intro cells h
  cases cells with
  | nil => exact absurd rfl h
  | cons c rest => rfl

theorem execute_faults_on_empty_registry_witness :
    ((executeRun (fun _ => ⟨none, none⟩) []).faulted = true ∧
      (executeRun (fun _ => ⟨none, none⟩) []).executionFlag = true ∧
      callbackCount (executeRun (fun _ => ⟨none, none⟩) []).trace = 0 ∧
      ∀ cells : List Cell, cells ≠ [] →
        (executeRun (fun _ => ⟨none, none⟩) cells).faulted = false) ∧
    (executeRun (fun _ => ⟨none, none⟩) [codeCell "1+1"]).faulted = false :=
  ⟨execute_faults_on_empty_registry (fun _ => ⟨none, none⟩),
    (execute_faults_on_empty_registry (fun _ => ⟨none, none⟩)).2.2.2
      [codeCell "1+1"] (by decide)⟩

/-- The slice of `NotebookState` that structural edits touch: the
`_uniqueId` counter set up by `Notebook.prototype.initialize`
(`notebook.js` line 32) and the registry (`this.collection`). -/
structure OrchestratorState where
  uniqueId : Nat
  cells : List Cell
deriving DecidableEq, Repr

/-- The state right after construction: counter `0`, empty registry. -/
def initOrchestrator : OrchestratorState :=
  ⟨0, []⟩

/-- The structural edits of claim C3: appending a code cell, appending a
text cell, and removing the cell at an index. -/
inductive EditOp
  | appendCode (value : String)
  | appendText (value : String)
  | removeAt (i : Nat)
deriving DecidableEq, Repr

/-- One edit applied to the state, also returning the list of unique ids
assigned during the edit.  Appends go through `appendView`: only when
`view.model.get('type') === 'code'` is `this._uniqueId++` assigned to the
model (`notebook.js` lines 308-311), then the model is pushed onto the
collection (line 322).  `collection.remove` (line 224) deletes by identity
and never touches the counter; removal of an absent index is a silent
no-op (`List.eraseIdx` out of range), matching spec §4.1. -/
def applyOp (s : OrchestratorState) : EditOp → OrchestratorState × List Nat
  | EditOp.appendCode v =>
      (⟨s.uniqueId + 1, s.cells ++ [⟨CellVariant.code, v, some s.uniqueId⟩]⟩, [s.uniqueId])
  | EditOp.appendText v =>
      (⟨s.uniqueId, s.cells ++ [textCell v]⟩, [])
  | EditOp.removeAt i =>
      (⟨s.uniqueId, s.cells.eraseIdx i⟩, [])

/-- A sequence of edits, accumulating the assigned ids in order. -/
def runOps (s : OrchestratorState) : List EditOp → OrchestratorState × List Nat
  | [] => (s, [])
  | op :: rest =>
      let r₁ := applyOp s op
      let r₂ := runOps r₁.1 rest
      (r₂.1, r₁.2 ++ r₂.2)

/-- Number of code-cell appends in an edit sequence. -/
def codeAppends : List EditOp → Nat
  | [] => 0
  | EditOp.appendCode _ :: r => codeAppends r + 1
  | _ :: r => codeAppends r

theorem runOps_ids (ops : List EditOp) :
    ∀ s : OrchestratorState,
      (runOps s ops).2 = List.range' s.uniqueId (codeAppends ops) ∧
      (runOps s ops).1.uniqueId = s.uniqueId + codeAppends ops := by
  induction ops with
  | nil => intro s; exact ⟨rfl, rfl⟩
  | cons op rest ih =>
      intro s
      cases op with
      | appendCode v =>
          have h := ih ⟨s.uniqueId + 1, s.cells ++ [⟨CellVariant.code, v, some s.uniqueId⟩]⟩
          refine ⟨?_, ?_⟩
          · simp [runOps, applyOp, codeAppends, h.1, List.range'_succ]
          · simp [runOps, applyOp, codeAppends, h.2]
            omega
      | appendText v =>
          have h := ih ⟨s.uniqueId, s.cells ++ [textCell v]⟩
          exact ⟨by simpa [runOps, applyOp, codeAppends] using h.1,
            by simpa [runOps, applyOp, codeAppends] using h.2⟩
      | removeAt i =>
          have h := ih ⟨s.uniqueId, s.cells.eraseIdx i⟩
          exact ⟨by simpa [runOps, applyOp, codeAppends] using h.1,
            by simpa [runOps, applyOp, codeAppends] using h.2⟩

/-- Claim C3: over any edit sequence interleaving code appends with text
appends and removals, the ids assigned to code cells are exactly
`0, 1, ..., N-1` in call order, where `N` counts the code appends; text
appends and removals assign no id (they contribute nothing to the log), so
an id is never reused even after its cell is removed, and the counter ends
at `N`. -/
theorem code_cell_ids_are_sequential (ops : List EditOp) :
    (runOps initOrchestrator ops).2 = List.range (codeAppends ops) ∧
    (runOps initOrchestrator ops).1.uniqueId = codeAppends ops := by
  refine ⟨?_, ?_⟩
  · rw [List.range_eq_range' (codeAppends ops)]
    exact (runOps_ids ops initOrchestrator).1
  · have h := (runOps_ids ops initOrchestrator).2
    simpa [initOrchestrator] using h

/-- Cursor placement requested on a focused cell: `moveCursorToEnd(0)`
places it at the start, `moveCursorToEnd()` at the end. -/
inductive CursorPos
  | atStart
  | atEnd
deriving DecidableEq, Repr

/-- A focus request issued by an event handler: which cell is focused and
where its cursor is placed. -/
inductive UIAction
  | focusCell (c : Cell) (cur : CursorPos)
deriving DecidableEq, Repr

theorem listGetAppendLen {α : Type} (pre : List α) (t : α) (rest : List α) :
    (pre ++ t :: rest)[pre.length]? = some t := by
  induction pre with
  | nil => simp
  | cons a l ih => simpa using ih

theorem listGetAppendLenSucc {α : Type} (pre : List α) (t x : α) :
    (pre ++ [t, x])[pre.length + 1]? = some x := by
  induction pre with
  | nil => simp
  | cons a l ih => simpa using ih

theorem listEraseAppendLen {α : Type} (pre : List α) (t : α) (rest : List α) :
    (pre ++ t :: rest).eraseIdx pre.length = pre ++ rest := by
  induction pre with
  | nil => rfl
  | cons a l ih => simpa using ih

theorem listInsertAppendLenSucc {α : Type} (pre : List α) (t x : α) :
    (pre ++ [t]).insertIdx (pre.length + 1) x = pre ++ [t, x] := by
  have h := List.insertIdx_length_self (pre ++ [t]) x
  simpa using h

/-- The `remove` event handler (`notebook.js` lines 217-225) for the cell at
index `i`.  The handler first checks `this.el.childNodes.length < 2` — by the
registry invariant (spec §3) the presentation child count equals the registry
length — and if so synthesizes a fresh code cell via `appendCodeView(view.el)`,
which inserts right after the removed cell and takes the next unique id.  It
then focuses `getNextView(view) || getPrevView(view)` with the cursor at the
end, and finally deletes the model from the collection.  Modelled from the
spec: `NotebookCollection.getNext` / `getPrev` return the adjacent cell in
registry order, or none at the boundary, and the view's own teardown deletes
its widget from the presentation. -/
def removeEventAct (s : OrchestratorState) (i : Nat) : OrchestratorState × List UIAction :=
  let s₁ : OrchestratorState :=
    if s.cells.length < 2 then
      ⟨s.uniqueId + 1, s.cells.insertIdx (i + 1) ⟨CellVariant.code, "", some s.uniqueId⟩⟩
    else s
  let acts : List UIAction :=
    match s₁.cells[i + 1]? with
    | some c => [UIAction.focusCell c CursorPos.atEnd]
    | none =>
        match i with
        | 0 => []
        | j + 1 =>
            match s₁.cells[j]? with
            | some c => [UIAction.focusCell c CursorPos.atEnd]
            | none => []
  (⟨s₁.uniqueId, s₁.cells.eraseIdx i⟩, acts)

/-- Claim C4: raising `remove` on the sole cell of a registry leaves exactly
one cell behind — a freshly synthesized code cell carrying the next unique
id — and the removed cell's identity is gone from the registry (the removed
cell cannot carry the fresh id, since ids below the counter are the only
ones ever assigned). -/
theorem remove_sole_cell_leaves_fresh_code (c : Cell) (n : Nat) :
    (removeEventAct ⟨n, [c]⟩ 0).1.cells = [⟨CellVariant.code, "", some n⟩] ∧
    (c.uniqueCellId ≠ some n → c ∉ (removeEventAct ⟨n, [c]⟩ 0).1.cells) := by
  have hcells : (removeEventAct ⟨n, [c]⟩ 0).1.cells = [⟨CellVariant.code, "", some n⟩] := rfl
  refine ⟨hcells, ?_⟩
  intro h hmem
  rw [hcells] at hmem
  simp only [List.mem_singleton] at hmem
  exact h (by rw [hmem])

theorem remove_sole_cell_leaves_fresh_code_witness :
    ((removeEventAct ⟨5, [codeCell "1+1"]⟩ 0).1.cells = [⟨CellVariant.code, "", some 5⟩] ∧
      ((codeCell "1+1").uniqueCellId ≠ some 5 →
        codeCell "1+1" ∉ (removeEventAct ⟨5, [codeCell "1+1"]⟩ 0).1.cells)) ∧
    codeCell "1+1" ∉ (removeEventAct ⟨5, [codeCell "1+1"]⟩ 0).1.cells :=
  ⟨remove_sole_cell_leaves_fresh_code (codeCell "1+1") 5,
    (remove_sole_cell_leaves_fresh_code (codeCell "1+1") 5).2 (by decide)⟩

/-- The `code` event handler registered on text cells (`notebook.js` lines
248-258) for the text cell at index `i` with event payload `payload`.  If
the payload is non-empty or the cell is the last one
(`this.el.lastChild === view.el`, presentation order equals registry order),
a code cell seeded with the payload is inserted after it (taking the next
unique id); then `getNextView(view)` is focused with the cursor at its
start; then, only if the text cell's own value is empty
(`if (!view.getValue()) { view.remove(); }`), the text cell's `remove`
handler runs.  Modelled from the spec: the view's `getValue()` returns the
cell's current content, and `getNext` is registry-order adjacency. -/
def codeEvent (s : OrchestratorState) (i : Nat) (payload : String) : OrchestratorState × List UIAction :=
  let s₁ : OrchestratorState :=
    if payload ≠ "" ∨ i + 1 = s.cells.length then
      ⟨s.uniqueId + 1, s.cells.insertIdx (i + 1) ⟨CellVariant.code, payload, some s.uniqueId⟩⟩
    else s
  let focusActs : List UIAction :=
    match s₁.cells[i + 1]? with
    | some c => [UIAction.focusCell c CursorPos.atStart]
    | none => []
  if (s₁.cells[i]?).map Cell.content = some "" then
    let r := removeEventAct s₁ i
    (r.1, focusActs ++ r.2)
  else
    (s₁, focusActs)

/-- Claim C7 counterexample: in the notebook `[Text "note"]` the text cell
is last; raising `code` with an empty payload inserts a fresh empty code
cell after it, but the text cell — whose content `"note"` is non-empty — is
NOT removed from the registry, contradicting the claim's unconditional
"removes the Text cell". -/
theorem code_event_keeps_nonempty_text :
    (codeEvent ⟨0, [textCell "note"]⟩ 0 "").1.cells
        = [textCell "note", ⟨CellVariant.code, "", some 0⟩] ∧
    textCell "note" ∈ (codeEvent ⟨0, [textCell "note"]⟩ 0 "").1.cells := by
  exact ⟨rfl, by decide⟩

/-- Claim C7 (amended): when the last cell of the notebook is a text cell
whose content is empty, raising `code` on it with an empty payload inserts
a new empty code cell immediately after it, moves focus into that next cell
with the cursor at its start, and removes the text cell from the registry;
a text cell with non-empty content is not removed. -/
theorem code_event_on_empty_last_text (pre : List Cell) (n : Nat) :
    (codeEvent ⟨n, pre ++ [⟨CellVariant.text, "", none⟩]⟩ pre.length "").1.cells
        = pre ++ [⟨CellVariant.code, "", some n⟩] ∧
    (codeEvent ⟨n, pre ++ [⟨CellVariant.text, "", none⟩]⟩ pre.length "").2.head?
        = some (UIAction.focusCell ⟨CellVariant.code, "", some n⟩ CursorPos.atStart) := by
  have h1 : (pre ++ [(⟨CellVariant.text, "", none⟩ : Cell)]).insertIdx (pre.length + 1)
      (⟨CellVariant.code, "", some n⟩ : Cell)
        = pre ++ [⟨CellVariant.text, "", none⟩, ⟨CellVariant.code, "", some n⟩] := by
    have h := listInsertAppendLenSucc pre (⟨CellVariant.text, "", none⟩ : Cell)
      (⟨CellVariant.code, "", some n⟩ : Cell)
    simpa using h
  have h2 : (pre ++ [(⟨CellVariant.text, "", none⟩ : Cell),
        ⟨CellVariant.code, "", some n⟩])[pre.length + 1]?
      = some ⟨CellVariant.code, "", some n⟩ :=
    listGetAppendLenSucc pre ⟨CellVariant.text, "", none⟩ ⟨CellVariant.code, "", some n⟩
  have h3 : (pre ++ [(⟨CellVariant.text, "", none⟩ : Cell),
        ⟨CellVariant.code, "", some n⟩])[pre.length]?
      = some ⟨CellVariant.text, "", none⟩ :=
    listGetAppendLen pre ⟨CellVariant.text, "", none⟩ [⟨CellVariant.code, "", some n⟩]
  have h4 : (pre ++ [(⟨CellVariant.text, "", none⟩ : Cell),
        ⟨CellVariant.code, "", some n⟩]).eraseIdx pre.length
      = pre ++ [⟨CellVariant.code, "", some n⟩] :=
    listEraseAppendLen pre ⟨CellVariant.text, "", none⟩ [⟨CellVariant.code, "", some n⟩]
  have h5 : ¬ ((pre ++ [(⟨CellVariant.text, "", none⟩ : Cell),
        ⟨CellVariant.code, "", some n⟩]).length < 2) := by
    simp
  constructor <;>
    simp [codeEvent, removeEventAct, h1, h2, h3, h4, h5]

/-- The save-suppression state of the Orchestrator: the `rendering` flag
set by `Notebook.prototype.render` (`notebook.js` line 76) and cleared by
`doneRendering` (line 81), plus whether the module-level debounced
`saveGist` has an invocation scheduled. -/
structure SaveCtx where
  rendering : Bool
  debouncePending : Bool
deriving DecidableEq, Repr

/-- Embedding of `Notebook.prototype.save` (`notebook.js` lines 57-60):
`if (!this.rendering) { saveGist.call(this); }`.  Calling the debounced
`saveGist` (re)arms its pending invocation; when `rendering` is set the
guard fails and nothing at all happens — nothing is scheduled or queued. -/
def save (s : SaveCtx) : SaveCtx :=
  if s.rendering then s else ⟨s.rendering, true⟩

/-- The registry change events wired to `save` by
`this.listenTo(this.collection, 'remove sort change', this.save)`
(`notebook.js` line 45). -/
inductive RegistryEvent
  | removeEv
  | sortEv
  | changeEv
deriving DecidableEq, Repr

/-- Dispatch of one registry change event: each of `remove`, `sort` and
`change` invokes `Notebook.prototype.save`. -/
def onRegistryChange (s : SaveCtx) (e : RegistryEvent) : SaveCtx :=
  match e with
  | RegistryEvent.removeEv => save s
  | RegistryEvent.sortEv => save s
  | RegistryEvent.changeEv => save s

/-- Claim C5: while `rendering` is true, no registry change event — nor any
sequence of them — hands a save to the external store or even schedules
one: the state (including the debouncer's pending flag) is left exactly as
it was, so every trigger raised in that window is skipped entirely, not
deferred. -/
theorem saves_suppressed_while_rendering (s : SaveCtx) (evs : List RegistryEvent)
    (h : s.rendering = true) :
    List.foldl onRegistryChange s evs = s := by
  induction evs with
  | nil => rfl
  | cons e rest ih =>
      have hs : onRegistryChange s e = s := by
        cases e <;> simp [onRegistryChange, save, h]
      rw [List.foldl_cons, hs]
      exact ih

theorem saves_suppressed_while_rendering_witness :
    (⟨true, false⟩ : SaveCtx).rendering = true ∧
    List.foldl onRegistryChange ⟨true, false⟩
        [RegistryEvent.removeEv, RegistryEvent.sortEv, RegistryEvent.changeEv]
      = ⟨true, false⟩ :=
  ⟨rfl, saves_suppressed_while_rendering ⟨true, false⟩
    [RegistryEvent.removeEv, RegistryEvent.sortEv, RegistryEvent.changeEv] rfl⟩

/-- The `browseUp` handler's scan (`notebook.js` lines 283-293): starting
from the reference cell at index `i` (the `currentCid` payload), repeatedly
step to the previous cell and stop at the first one whose type is `code`.
Modelled from the spec: `NotebookCollection.getPrev` is registry-order
adjacency, `none` at the front boundary. -/
def scanPrevCode (cells : List Cell) : Nat → Option Nat
  | 0 => none
  | j + 1 =>
      if (cells[j]?).map Cell.variant = some CellVariant.code then some j
      else scanPrevCode cells j

/-- The observable effect of `browseUp` with reference index `i`: if a
preceding code cell exists, the raising view shows that cell's content with
the cursor at its end (`view.browseToCell(model); view.moveCursorToEnd()`;
`browseToCell` modelled from the spec: it makes the cell show the located
content); if none exists, the event is a no-op. -/
def browseUpEffect (cells : List Cell) (i : Nat) : Option (String × CursorPos) :=
  (scanPrevCode cells i).bind fun j =>
    (cells[j]?).map fun c => (c.content, CursorPos.atEnd)

theorem scanPrevCode_found (cells : List Cell) :
    ∀ i j, scanPrevCode cells i = some j →
      j < i ∧ (cells[j]?).map Cell.variant = some CellVariant.code ∧
        ∀ k, j < k → k < i → (cells[k]?).map Cell.variant ≠ some CellVariant.code := by
  intro i
  induction i with
  | zero =>
      intro j h
      simp [scanPrevCode] at h
  | succ m ih =>
      intro j h
      simp only [scanPrevCode] at h
      by_cases hc : (cells[m]?).map Cell.variant = some CellVariant.code
      · rw [if_pos hc] at h
        obtain rfl : m = j := by simpa using h
        refine ⟨Nat.lt_succ_self m, hc, ?_⟩
        intro k hk₁ hk₂
        omega
      · rw [if_neg hc] at h
        obtain ⟨hj, hcode, hnone⟩ := ih j h
        refine ⟨Nat.lt_succ_of_lt hj, hcode, ?_⟩
        intro k hk₁ hk₂
        rcases Nat.lt_succ_iff_lt_or_eq.mp hk₂ with hk | rfl
        · exact hnone k hk₁ hk
        · exact hc

theorem scanPrevCode_none (cells : List Cell) :
    ∀ i, (∀ k, k < i → (cells[k]?).map Cell.variant ≠ some CellVariant.code) →
      scanPrevCode cells i = none := by
  intro i
  induction i with
  | zero => intro _; rfl
  | succ m ih =>
      intro h
      simp only [scanPrevCode]
      rw [if_neg (h m (Nat.lt_succ_self m))]
      exact ih fun k hk => h k (Nat.lt_succ_of_lt hk)

/-- Claim C6: `browseUp` scans strictly backward from the reference index,
skips non-code cells, and stops at the FIRST code cell found (nothing
between it and the reference is code); finding one shows its content with
the cursor at the end; with no preceding code cell the event is a no-op.
In particular, in `[Code "a", Text "b", Code "c", Code "d"]` with the
fourth cell as reference it locates `"c"`, not `"a"`. -/
theorem browse_up_stops_at_nearest_code :
    browseUpEffect [codeCell "a", textCell "b", codeCell "c", codeCell "d"] 3
        = some ("c", CursorPos.atEnd) ∧
    (∀ (cells : List Cell) (i j : Nat), scanPrevCode cells i = some j →
      j < i ∧ (cells[j]?).map Cell.variant = some CellVariant.code ∧
        (∀ k, j < k → k < i → (cells[k]?).map Cell.variant ≠ some CellVariant.code) ∧
        ∀ c, cells[j]? = some c →
          browseUpEffect cells i = some (c.content, CursorPos.atEnd)) ∧
    (∀ (cells : List Cell) (i : Nat),
      (∀ k, k < i → (cells[k]?).map Cell.variant ≠ some CellVariant.code) →
        browseUpEffect cells i = none) := by
  refine ⟨by decide, ?_, ?_⟩
  · intro cells i j h
    obtain ⟨hj, hcode, hnone⟩ := scanPrevCode_found cells i j h
    refine ⟨hj, hcode, hnone, ?_⟩
    intro c hc
    simp [browseUpEffect, h, hc]
  · intro cells i h
    simp [browseUpEffect, scanPrevCode_none cells i h]

theorem browse_up_stops_at_nearest_code_witness :
    scanPrevCode [codeCell "a", textCell "b", codeCell "c", codeCell "d"] 3 = some 2 ∧
    (2 < 3 ∧
      (([codeCell "a", textCell "b", codeCell "c", codeCell "d"][2]?).map Cell.variant
        = some CellVariant.code) ∧
      (∀ k, 2 < k → k < 3 →
        (([codeCell "a", textCell "b", codeCell "c", codeCell "d"][k]?).map Cell.variant
          ≠ some CellVariant.code)) ∧
      ∀ c, [codeCell "a", textCell "b", codeCell "c", codeCell "d"][2]? = some c →
        browseUpEffect [codeCell "a", textCell "b", codeCell "c", codeCell "d"] 3
          = some (c.content, CursorPos.atEnd)) :=
  ⟨by decide,
    browse_up_stops_at_nearest_code.2.1
      [codeCell "a", textCell "b", codeCell "c", codeCell "d"] 3 2 (by decide)⟩

/-- Swap the adjacent elements at positions `i` and `i + 1`. -/
def swapAdj {α : Type} : List α → Nat → List α
  | [], _ => []
  | [a], _ => [a]
  | a :: b :: rest, 0 => b :: a :: rest
  | a :: rest, n + 1 => a :: swapAdj rest n

/-- The `moveUp` handler (`notebook.js` lines 192-198):
`if (!view.el.previousSibling) { return; }` — the first cell has no
previous sibling (presentation order equals registry order, spec §3), so
the event returns before touching anything; otherwise the widget moves
before its previous sibling and `collection.sort()` reconciles the
registry, i.e. the cell swaps with its predecessor. -/
def moveUp (cells : List Cell) (i : Nat) : List Cell :=
  if i = 0 then cells else swapAdj cells (i - 1)

/-- The `moveDown` handler (`notebook.js` lines 200-206): with no next
sibling — the last cell — it returns untouched; otherwise the cell swaps
with its successor and `sort` reconciles. -/
def moveDown (cells : List Cell) (i : Nat) : List Cell :=
  if i + 1 < cells.length then swapAdj cells i else cells

/-- Claim C8: `moveUp` on the first cell and `moveDown` on the last cell
change nothing — the registry (hence also the reconciled presentation
order and every cell's content) is exactly what it was. -/
theorem boundary_moves_are_noops (cells : List Cell) :
    moveUp cells 0 = cells ∧ moveDown cells (cells.length - 1) = cells := by
  constructor
  · simp [moveUp]
  · have h : ¬ (cells.length - 1 + 1 < cells.length) := by omega
    simp [moveDown, h]

/-- What `saveGist` captures from `this` when invoked: the notebook whose
user identity, gist and collection the eventual save will use
(`notebook.js` lines 20-28, invoked as `saveGist.call(this)` line 58). -/
structure SaveRequest where
  notebookId : Nat
  gist : String
  registry : List Cell
deriving DecidableEq, Repr

/-- Trailing-edge `_.debounce(fn, 500)` semantics of the module-level
`saveGist` closure (`notebook.js` lines 20-28): there is ONE shared timer
and ONE shared saved context for the whole module — the closure is created
once at module load, outside any instance — so calls from different
Notebook instances share it.  Each call (re)arms the timer `delay` ms out
and overwrites the saved context; the body runs only for a call that no
further call follows within `delay`, and then with that latest context.
Given the time-ordered list of calls from all instances, this returns the
contexts the body actually runs with. -/
def debounceExec {α : Type} (delay : Nat) : List (Nat × α) → List α
  | [] => []
  | [p] => [p.2]
  | p :: q :: rest =>
      if q.1 < p.1 + delay then debounceExec delay (q :: rest)
      else p.2 :: debounceExec delay (q :: rest)

/-- Claim C10: the debounced `saveGist` is one module-level closure shared
by every Notebook instance, so when instance B's save trigger fires within
the 500ms debounce delay of a pending trigger from instance A, the two
coalesce into a single save executed with B's identity, gist and registry;
A's pending save never runs. -/
theorem shared_debounce_coalesces (tA tB : Nat) (A B : SaveRequest)
    (h₁ : tA ≤ tB) (h₂ : tB < tA + 500) :
    debounceExec 500 [(tA, A), (tB, B)] = [B] ∧
    (A ≠ B → A ∉ debounceExec 500 [(tA, A), (tB, B)]) := by
  have hrun : debounceExec 500 [(tA, A), (tB, B)] = [B] := by
    simp [debounceExec, h₂]
  refine ⟨hrun, ?_⟩
  intro hne hmem
  rw [hrun] at hmem
  simp only [List.mem_singleton] at hmem
  exact hne hmem

theorem shared_debounce_coalesces_witness :
    (0 : Nat) ≤ 100 ∧ (100 : Nat) < 0 + 500 ∧
    (debounceExec 500
        [(0, (⟨1, "gistA", [codeCell "1+1"]⟩ : SaveRequest)),
          (100, ⟨2, "gistB", [codeCell "2+2"]⟩)]
      = [⟨2, "gistB", [codeCell "2+2"]⟩] ∧
    ((⟨1, "gistA", [codeCell "1+1"]⟩ : SaveRequest) ≠ ⟨2, "gistB", [codeCell "2+2"]⟩ →
      (⟨1, "gistA", [codeCell "1+1"]⟩ : SaveRequest) ∉
        debounceExec 500
          [(0, (⟨1, "gistA", [codeCell "1+1"]⟩ : SaveRequest)),
            (100, ⟨2, "gistB", [codeCell "2+2"]⟩)])) :=
  ⟨by decide, by decide,
    shared_debounce_coalesces 0 100 ⟨1, "gistA", [codeCell "1+1"]⟩
      ⟨2, "gistB", [codeCell "2+2"]⟩ (by decide) (by decide)⟩

end ApiNotebook
